import Mathlib

/-!
# Verification of the LTE-Cell-Scanner blind cell acquisition pipeline

Shallow embedding (over exact rational/integer arithmetic) of the parts of
`src/searcher.cpp` that the specification's claims are about, together with
proofs or refutations of those claims.

Conventions:
* C++ `double` arithmetic is embedded as exact `ℚ` arithmetic.
* Complex values are embedded as pairs `ℚ × ℚ`.
* itpp vectors are embedded as Lean `List`s or as total functions out of `ℕ`
  consulted only on the valid index range.
* Values that are irrational in the source (`pow(x,0.5)`, `udb10(-8)`) are
  taken as function/constant parameters so that all definitions stay
  executable; the theorems below hold for every instantiation.
-/

set_option maxRecDepth 40000

namespace LTECellScanner

/-- Modelled from the spec: `itpp_ext::matlab_mod` (declared in `itpp_ext.h`,
which is not part of the sources here).  The spec uses plain mathematical
`mod` ("`cell.sfn = (sfn_high·4 − g) mod 1024`", "`(idx+δ) mod 9600`"),
i.e. Matlab's floored modulo, which for a positive modulus is `Int.emod`. -/
def matlab_mod (a b : ℤ) : ℤ := a % b

/-- Modelled from the spec: the `WRAP(x,sm,lg)` macro (from `macros.h`, not in
the sources here).  Per the spec, "`frame_start` wraps to
[−0.5, (2·9600 − 0.5)·16/FS_LTE·fs_programmed·k_factor)": the value is reduced
modulo the interval length into `[sm, lg)`. -/
def wrap (x sm lg : ℚ) : ℚ := sm + (x - sm) - ⌊(x - sm) / (lg - sm)⌋ * (lg - sm)

/-- Embeds `itpp::round_i` / C `round`: round half away from zero, as an integer. -/
def round_i (x : ℚ) : ℤ := if 0 ≤ x then ⌊x + 1/2⌋ else ⌈x - 1/2⌉

/-- The constant `FS_LTE = 30.72 MHz` (from `constants.h`; the spec fixes it via
"153,600 complex samples (~80 ms at LTE/16 rate)" and "FS_LTE/16 = 1.92 MHz"). -/
def FS_LTE : ℚ := 30720000

/-- The function `wrap` always lands in `[sm, lg)` when the interval is nonempty. -/
theorem wrap_mem_Ico (x sm lg : ℚ) (h : sm < lg) : wrap x sm lg ∈ Set.Ico sm lg := by
  unfold wrap
  have hpos : 0 < lg - sm := by linarith
  constructor
  · have h1 : (⌊(x - sm) / (lg - sm)⌋ : ℚ) ≤ (x - sm) / (lg - sm) := Int.floor_le _
    have h2 : (⌊(x - sm) / (lg - sm)⌋ : ℚ) * (lg - sm) ≤ (x - sm) / (lg - sm) * (lg - sm) :=
      mul_le_mul_of_nonneg_right h1 (le_of_lt hpos)
    rw [div_mul_cancel₀ _ (ne_of_gt hpos)] at h2
    linarith
  · have h1 : (x - sm) / (lg - sm) < ⌊(x - sm) / (lg - sm)⌋ + 1 := Int.lt_floor_add_one _
    have h2 : (x - sm) / (lg - sm) * (lg - sm) < ((⌊(x - sm) / (lg - sm)⌋ : ℚ) + 1) * (lg - sm) :=
      mul_lt_mul_of_pos_right h1 hpos
    rw [div_mul_cancel₀ _ (ne_of_gt hpos)] at h2
    nlinarith

/-! ## Data model: the `Cell` record

Modelled from the spec (§3 "Cell record"); the C++ `Cell` class lives in
`common.h`, which is not among the sources here.  Only the fields the claims
touch are carried.  `duplex_mode` is the integer `tdd_flag` the code assigns.
Enumerated fields mirror `cp_type_t`, `phich_duration_t`, `phich_resource_t`. -/

inductive CpType where
  | UNKNOWN : CpType
  | NORMAL : CpType
  | EXTENDED : CpType
deriving DecidableEq, Repr

inductive PhichDuration where
  | UNKNOWN : PhichDuration
  | NORMAL : PhichDuration
  | EXTENDED : PhichDuration
deriving DecidableEq, Repr

inductive PhichResource where
  | UNKNOWN : PhichResource
  | oneSixth : PhichResource
  | half : PhichResource
  | one : PhichResource
  | two : PhichResource
deriving DecidableEq, Repr

structure Cell where
  fc_requested : ℚ := 0
  fc_programmed : ℚ := 0
  n_id_2 : ℤ := -1
  ind : ℚ := 0
  freq : ℚ := 0
  pss_pow : ℚ := 0
  n_id_1 : ℤ := -1
  cp_type : CpType := CpType.UNKNOWN
  frame_start : ℚ := 0
  duplex_mode : ℤ := -1
  n_ports : ℤ := -1
  n_rb_dl : ℤ := -1
  phich_duration : PhichDuration := PhichDuration.UNKNOWN
  phich_resource : PhichResource := PhichResource.UNKNOWN
  sfn : ℤ := -1
deriving DecidableEq, Repr

/-- Shortcut `cell.n_symb_dl()`: 7 OFDM symbols per slot for normal CP, 6 for extended
(spec §3: "`n_symb_dl = 7` (normal CP) or 6 (extended CP)"). -/
def Cell.n_symb_dl (c : Cell) : ℤ :=
  if c.cp_type = CpType.NORMAL then 7 else 6

/-! ## MIB unpacking inside `decode_mib` (searcher.cpp lines 2546–2595)

`decode_mib` loops over frame-timing guesses `0..3` and port counts
`{1,2,4}`; once a hypothesis passes the CRC check it unpacks the MIB from the
decoded bit vector `c_est` into `cell_out` (a copy of the input cell) and
returns immediately.  The unpacking below is the exact body of the
`if (crc_est==c_est(24,-1))` branch.  `c_est` is a bit vector, embedded as a
total function `ℕ → Bool` consulted on indices `0..23`. -/

/-- The 3-bit DL-bandwidth field `bw_packed = c_est(0)*4 + c_est(1)*2 + c_est(2)`. -/
def bw_packed (c_est : ℕ → Bool) : ℤ :=
  (if c_est 0 then 1 else 0) * 4 + (if c_est 1 then 1 else 0) * 2 + (if c_est 2 then 1 else 0)

/-- The 2-bit PHICH-resource field `phich_res = c_est(4)*2 + c_est(5)`. -/
def phich_res_packed (c_est : ℕ → Bool) : ℤ :=
  (if c_est 4 then 1 else 0) * 2 + (if c_est 5 then 1 else 0)

/-- The unsigned value of MIB bits 6..13:
`128*c_est(6) + 64*c_est(7) + ... + 2*c_est(12) + c_est(13)`. -/
def sfn_high (c_est : ℕ → Bool) : ℤ :=
  128 * (if c_est 6 then 1 else 0) + 64 * (if c_est 7 then 1 else 0) +
  32 * (if c_est 8 then 1 else 0) + 16 * (if c_est 9 then 1 else 0) +
  8 * (if c_est 10 then 1 else 0) + 4 * (if c_est 11 then 1 else 0) +
  2 * (if c_est 12 then 1 else 0) + (if c_est 13 then 1 else 0)

/-- Variable `sfn_temp` is declared `int8` in the source, so the unsigned bit pattern
0..255 is narrowed to a signed 8-bit value (two's complement: values ≥ 128
become negative). -/
def sfn_temp (c_est : ℕ → Bool) : ℤ :=
  if sfn_high c_est < 128 then sfn_high c_est else sfn_high c_est - 256

/-- The MIB-unpacking branch of `decode_mib` (lines 2546–2595), entered when
the CRC matches for guess `frame_timing_guess` and port count `n_ports`.
The `switch (bw_packed)` has no `default:` case, so `bw_packed ∈ {6,7}`
leaves `cell_out.n_rb_dl` at its value copied from the input cell. -/
def decode_mib_unpack (cell : Cell) (c_est : ℕ → Bool) (frame_timing_guess : ℤ)
    (n_ports : ℤ) : Cell :=
  { cell with
    n_ports := n_ports
    n_rb_dl :=
      if bw_packed c_est = 0 then 6
      else if bw_packed c_est = 1 then 15
      else if bw_packed c_est = 2 then 25
      else if bw_packed c_est = 3 then 50
      else if bw_packed c_est = 4 then 75
      else if bw_packed c_est = 5 then 100
      else cell.n_rb_dl
    phich_duration := if c_est 3 then PhichDuration.EXTENDED else PhichDuration.NORMAL
    phich_resource :=
      if phich_res_packed c_est = 0 then PhichResource.oneSixth
      else if phich_res_packed c_est = 1 then PhichResource.half
      else if phich_res_packed c_est = 2 then PhichResource.one
      else PhichResource.two
    sfn := matlab_mod (sfn_temp c_est * 4 - frame_timing_guess) 1024 }

/-- C1: for every CRC-passing MIB, the returned `sfn` equals
`(sfn_high·4 − g) mod 1024` with `sfn_high` the *unsigned* 8-bit value of MIB
bits 6..13 — the `int8` narrowing of `sfn_temp` is invisible modulo 1024. -/
theorem decode_mib_sfn_eq (cell : Cell) (c_est : ℕ → Bool) (g n_ports : ℤ)
    (hg : 0 ≤ g ∧ g ≤ 3) :
    (decode_mib_unpack cell c_est g n_ports).sfn =
      (sfn_high c_est * 4 - g) % 1024 := by
  show matlab_mod (sfn_temp c_est * 4 - g) 1024 = (sfn_high c_est * 4 - g) % 1024
  unfold matlab_mod sfn_temp
  split
  · rfl
  · omega

/-- Witness for `decode_mib_sfn_eq` at a concrete input exercising the
`int8`-wrap path (`sfn_high = 128`, `g = 1`). -/
theorem decode_mib_sfn_eq_witness :
    ((0 : ℤ) ≤ 1 ∧ (1 : ℤ) ≤ 3) ∧
      (decode_mib_unpack {} (fun k => decide (k = 6)) 1 1).sfn =
        (sfn_high (fun k => decide (k = 6)) * 4 - 1) % 1024 :=
  ⟨⟨by decide, by decide⟩,
    decode_mib_sfn_eq {} (fun k => decide (k = 6)) 1 1 ⟨by decide, by decide⟩⟩

/-- C10: a CRC-passing hypothesis whose 3-bit bandwidth field decodes to the
reserved values 6 or 7 still returns immediately with `n_ports`,
`phich_duration`, `phich_resource` and `sfn` assigned, while `n_rb_dl` keeps
its value from the input cell (the `switch` has no `default`). -/
theorem decode_mib_reserved_bw (cell : Cell) (c_est : ℕ → Bool) (g n_ports : ℤ)
    (h : bw_packed c_est = 6 ∨ bw_packed c_est = 7) :
    decode_mib_unpack cell c_est g n_ports =
      { cell with
        n_ports := n_ports
        phich_duration := if c_est 3 then PhichDuration.EXTENDED else PhichDuration.NORMAL
        phich_resource :=
          if phich_res_packed c_est = 0 then PhichResource.oneSixth
          else if phich_res_packed c_est = 1 then PhichResource.half
          else if phich_res_packed c_est = 2 then PhichResource.one
          else PhichResource.two
        sfn := matlab_mod (sfn_temp c_est * 4 - g) 1024 } := by
  unfold decode_mib_unpack
  rcases h with h | h <;> simp [h]

/-- Witness for `decode_mib_reserved_bw`: bits 0,1 set and bit 2 clear give
`bw_packed = 6`. -/
theorem decode_mib_reserved_bw_witness :
    (bw_packed (fun k => decide (k = 0 ∨ k = 1)) = 6 ∨
      bw_packed (fun k => decide (k = 0 ∨ k = 1)) = 7) ∧
    decode_mib_unpack { n_rb_dl := -1 } (fun k => decide (k = 0 ∨ k = 1)) 0 2 =
      { n_rb_dl := -1, n_ports := 2, phich_duration := PhichDuration.NORMAL,
        phich_resource := PhichResource.oneSixth, sfn := 0 } := by
  constructor
  · exact Or.inl (by decide)
  · have h := decode_mib_reserved_bw { n_rb_dl := -1 } (fun k => decide (k = 0 ∨ k = 1)) 0 2
      (Or.inl (by decide))
    rw [h]
    decide

/-! ## `xc_correlate` output shape and `xc_combine` (searcher.cpp 145–153, 302–337)

Complex floats are embedded as pairs `ℚ × ℚ`; `itpp::sqr` of a complex value
is its squared magnitude. -/

abbrev Cplx := ℚ × ℚ

/-- Embeds `itpp::sqr(complex)`: squared magnitude. -/
def normSq (z : Cplx) : ℚ := z.1 ^ 2 + z.2 ^ 2

/-- Function `xc_correlate` allocates `xc` with `n_cap-136` time positions per PSS/freq
(line 150: correlations at `k = 0 .. n_cap-137`). -/
def xc_correlate_len (n_cap : ℕ) : ℕ := n_cap - 136

/-- Line 303: `n_comb_xc = floor_i((xc[0].size()-100)/9600)` (integer division
of the unsigned length, well-defined for `xc_len ≥ 100`). -/
def xc_combine_n_comb_of_len (xc_len : ℕ) : ℕ := (xc_len - 100) / 9600

/-- The count `n_comb_xc` as produced by the pipeline on a capture buffer of `n_cap`
samples: `xc_combine` reads the length of the `xc` tensor built by
`xc_correlate`. -/
def xc_combine_n_comb (n_cap : ℕ) : ℕ := xc_combine_n_comb_of_len (xc_correlate_len n_cap)

/-- The claim's (and spec §4.2's) formula `M = ⌊(N − 137 − 100)/9600⌋`,
written from the spec's words for refinement comparison with
`xc_combine_n_comb`. -/
def n_comb_xc_spec (n_cap : ℕ) : ℕ := (n_cap - 137 - 100) / 9600

/-- Per-frequency `k_factor` recomputation (lines 314–316): under
`sampling_carrier_twist` it becomes `(fc_requested - f_off)/fc_programmed`,
otherwise the passed-in value is used. -/
def k_factor_of (sampling_carrier_twist : Bool) (fc_requested fc_programmed k_factor : ℚ)
    (f_off : ℚ) : ℚ :=
  if sampling_carrier_twist then (fc_requested - f_off) / fc_programmed else k_factor

/-- The inner accumulation of `xc_combine` (lines 318–335): for each `(t,idx,foi)`
start from 0, add `sqr(xc[t][idx+actual_start_index][foi])` for
`m = 0 .. n_comb_xc-1` with `actual_start_index = round_i(m·0.005·k_factor·fs_programmed)`
(a non-negative index in all reachable configurations), then divide by `n_comb_xc`. -/
def xc_incoherent_single (xc : ℕ → ℕ → ℕ → Cplx) (n_comb_xc : ℕ)
    (k_factor fs_programmed : ℚ) (t idx foi : ℕ) : ℚ :=
  ((List.range n_comb_xc).foldl
    (fun acc (m : ℕ) =>
      acc + normSq (xc t (idx + (round_i ((m : ℚ) * (5/1000) * k_factor * fs_programmed)).toNat) foi))
    0) / (n_comb_xc : ℚ)

/-- Left fold of accumulation is a `Finset.range` sum. -/
theorem foldl_add_eq_sum (g : ℕ → ℚ) (n : ℕ) :
    (List.range n).foldl (fun acc m => acc + g m) 0 = ∑ m ∈ Finset.range n, g m := by
  induction n with
  | zero => simp
  | succ n ih => rw [List.range_succ, List.foldl_append, Finset.sum_range_succ, ih]; simp

/-- C5 (amended): on a capture buffer of `N ≥ 236` samples the incoherent
combiner uses `M = ⌊(N − 136 − 100)/9600⌋` terms (the correlator emits
`N − 136` positions), and each output bin is the mean over `m < M` of
`|xc[t][idx + round(m·0.005·k_factor·fs_programmed)][f]|²`. -/
theorem xc_combine_n_comb_and_mean (N : ℕ) (hN : 236 ≤ N)
    (xc : ℕ → ℕ → ℕ → Cplx) (k_factor fs_programmed : ℚ) :
    xc_combine_n_comb N = (N - 236) / 9600 ∧
    ∀ t idx foi,
      xc_incoherent_single xc (xc_combine_n_comb N) k_factor fs_programmed t idx foi =
        (∑ m ∈ Finset.range (xc_combine_n_comb N),
          normSq (xc t (idx + (round_i ((m : ℚ) * (5/1000) * k_factor * fs_programmed)).toNat) foi))
        / (xc_combine_n_comb N : ℚ) := by
  constructor
  · unfold xc_combine_n_comb xc_combine_n_comb_of_len xc_correlate_len
    omega
  · intro t idx foi
    unfold xc_incoherent_single
    rw [foldl_add_eq_sum]

/-- Witness for `xc_combine_n_comb_and_mean` at the standard capture length
`N = 153600` (where `M = 15`), evaluated at `t = idx = foi = 0`. -/
theorem xc_combine_n_comb_and_mean_witness :
    236 ≤ 153600 ∧
    (xc_combine_n_comb 153600 = (153600 - 236) / 9600 ∧
      xc_incoherent_single (fun _ _ _ => ((1 : ℚ), (0 : ℚ))) (xc_combine_n_comb 153600)
          1 1920000 0 0 0 =
        (∑ m ∈ Finset.range (xc_combine_n_comb 153600),
          normSq ((fun (_ _ _ : ℕ) => ((1 : ℚ), (0 : ℚ))) 0
            (0 + (round_i ((m : ℚ) * (5/1000) * 1 * 1920000)).toNat) 0))
        / (xc_combine_n_comb 153600 : ℚ)) := by
  refine ⟨by norm_num, ?_, ?_⟩
  · exact (xc_combine_n_comb_and_mean 153600 (by norm_num)
      (fun _ _ _ => ((1 : ℚ), (0 : ℚ))) 1 1920000).1
  · exact (xc_combine_n_comb_and_mean 153600 (by norm_num)
      (fun _ _ _ => ((1 : ℚ), (0 : ℚ))) 1 1920000).2 0 0 0

/-- C5 counterexample: at `N = 9836` the code computes
`n_comb_xc = ⌊(9836−136−100)/9600⌋ = 1`, while the claim's formula
`⌊(N−137−100)/9600⌋` gives 0. -/
theorem xc_combine_n_comb_counterexample :
    xc_combine_n_comb 9836 ≠ n_comb_xc_spec 9836 := by decide

/-! ## `pbch_extract` RE count (searcher.cpp 2390–2430)

The triple loop over frames `fr < 4`, PBCH OFDM symbols `sym < 4` and
subcarriers `sc < 72` appends one soft symbol per non-skipped RE; the skip
condition is `mod(sc,3)==v_shift_m3 && (sym==0 || sym==1 || (sym==3 && n_symb_dl==6))`
with `v_shift_m3 = mod(n_id_cell,3)` and `n_symb_dl` the slot length.
`idx` counts the extracted symbols; the function asserts `idx == m_bit/2`. -/

/-- Derived cell identity `n_id_cell = 3·n_id_1 + n_id_2` (spec §3). -/
def Cell.n_id_cell (c : Cell) : ℤ := 3 * c.n_id_1 + c.n_id_2

/-- Number of complex soft symbols extracted by `pbch_extract`, as a function
of the local shortcuts `v_shift_m3` and `n_symb_dl` computed at its entry. -/
def pbch_extract_count (v_shift_m3 n_symb_dl : ℤ) : ℕ :=
  (List.range 4).foldl (fun acc _fr =>
    (List.range 4).foldl (fun acc sym =>
      (List.range 72).foldl (fun acc sc =>
        if matlab_mod (sc : ℤ) 3 = v_shift_m3 ∧
            (sym = 0 ∨ sym = 1 ∨ (sym = 3 ∧ n_symb_dl = 6)) then acc
        else acc + 1) acc) acc) 0

/-- Shortcut `m_bit` (line 2401): 1920 coded PBCH bits for normal CP, 1728 for extended. -/
def pbch_m_bit (c : Cell) : ℕ := if c.cp_type = CpType.NORMAL then 1920 else 1728

/-- C8 (amended): `pbch_extract` emits exactly `m_bit/2` complex soft symbols —
960 for normal CP and 864 for extended CP (i.e. 1920 resp. 1728 *soft bits*
after QPSK demodulation), for every cell identity. -/
theorem pbch_extract_count_eq (cell : Cell) :
    pbch_extract_count (matlab_mod cell.n_id_cell 3) cell.n_symb_dl =
      pbch_m_bit cell / 2 := by
  have hv : matlab_mod cell.n_id_cell 3 = 0 ∨ matlab_mod cell.n_id_cell 3 = 1 ∨
      matlab_mod cell.n_id_cell 3 = 2 := by
    unfold matlab_mod; omega
  unfold Cell.n_symb_dl pbch_m_bit
  rcases hv with hv | hv | hv <;> rw [hv] <;>
    by_cases hc : cell.cp_type = CpType.NORMAL <;> simp only [hc, if_true, if_false] <;> decide

/-- C8 counterexample: for a normal-CP cell with `n_id_cell = 0` the extraction
count is 960, not the 1,920 "complex soft symbols" the claim states. -/
theorem pbch_extract_count_counterexample :
    pbch_extract_count
        (matlab_mod (Cell.n_id_cell { n_id_1 := 0, n_id_2 := 0, cp_type := CpType.NORMAL }) 3)
        (Cell.n_symb_dl { n_id_1 := 0, n_id_2 := 0, cp_type := CpType.NORMAL }) ≠ 1920 := by
  decide

/-! ## `sss_detect` decision stage (searcher.cpp 1580–1638)

`sss_detect` first runs channel estimation and `sss_detect_ml`, producing the
168×2 log-likelihood matrices `log_lik_nrm` / `log_lik_ext`; the claims are
about the decision logic that follows, so those matrices are inputs here
(embedded as total functions consulted on `i < 168`, `c < 2`).  The square
root in `pow(lik_var,0.5)` is irrational, so it is an abstract function
parameter `sqrtQ`; every theorem below holds for each instantiation. -/

/-- Embeds `itpp::max(v, index)`: the first index attaining the maximum of
`f 0 .. f (n-1)` (the scan starts from index 0 and replaces the incumbent
only on strict `>`; the cached best value is always `f` at the incumbent). -/
def vecMaxIdx (f : ℕ → ℚ) (n : ℕ) : ℕ :=
  (List.range n).foldl (fun b (i : ℕ) => if f i > f b then i else b) 0

/-- The value `itpp::max` returns: `f` at the winning index. -/
def vecMaxVal (f : ℕ → ℚ) (n : ℕ) : ℚ := f (vecMaxIdx f n)

/-- The scan of nothing keeps index 0. -/
theorem vecMaxIdx_zero (f : ℕ → ℚ) : vecMaxIdx f 0 = 0 := rfl

/-- One more scanned element. -/
theorem vecMaxIdx_succ (f : ℕ → ℚ) (n : ℕ) :
    vecMaxIdx f (n+1) = if f n > f (vecMaxIdx f n) then n else vecMaxIdx f n := by
  unfold vecMaxIdx
  rw [List.range_succ, List.foldl_append]
  rfl

/-- The scan dominates `f 0` and every scanned element, and its index is
scanned (or the start index 0). -/
theorem vecMaxIdx_spec (f : ℕ → ℚ) (n : ℕ) :
    f 0 ≤ f (vecMaxIdx f n) ∧ (∀ i < n, f i ≤ f (vecMaxIdx f n)) ∧
      (vecMaxIdx f n < n ∨ vecMaxIdx f n = 0) := by
  induction n with
  | zero => exact ⟨le_refl _, fun i hi => absurd hi (Nat.not_lt_zero i), Or.inr rfl⟩
  | succ n ih =>
    rw [vecMaxIdx_succ]
    by_cases h : f n > f (vecMaxIdx f n)
    · rw [if_pos h]
      refine ⟨le_of_lt (lt_of_le_of_lt ih.1 h), fun i hi => ?_, Or.inl (by omega)⟩
      rcases Nat.lt_succ_iff_lt_or_eq.mp hi with hi' | hi'
      · exact le_of_lt (lt_of_le_of_lt (ih.2.1 i hi') h)
      · subst hi'; exact le_refl _
    · rw [if_neg h]
      refine ⟨ih.1, fun i hi => ?_, by rcases ih.2.2 with h' | h' <;> omega⟩
      rcases Nat.lt_succ_iff_lt_or_eq.mp hi with hi' | hi'
      · exact ih.2.1 i hi'
      · subst hi'; exact le_of_not_lt h

/-- Pointwise-equal vectors have the same scan index. -/
theorem vecMaxIdx_congr (f g : ℕ → ℚ) (n : ℕ) (h : ∀ i, f i = g i) :
    vecMaxIdx f n = vecMaxIdx g n := by
  have hfg : f = g := funext h
  rw [hfg]

/-- A constant vector never displaces the start index. -/
theorem vecMaxIdx_const (c : ℚ) (n : ℕ) : vecMaxIdx (fun _ => c) n = 0 := by
  induction n with
  | zero => rfl
  | succ n ih => rw [vecMaxIdx_succ, ih]; simp [lt_irrefl]

/-- A vector with a strict unique maximum: the scan returns its index. -/
theorem vecMaxIdx_unique (f : ℕ → ℚ) (n j : ℕ) (hj : j < n)
    (hmax : ∀ i < n, i ≠ j → f i < f j) : vecMaxIdx f n = j := by
  induction n with
  | zero => omega
  | succ n ih =>
    rw [vecMaxIdx_succ]
    by_cases hjn : j = n
    · subst hjn
      rcases Nat.eq_zero_or_pos j with h0 | hpos
      · subst h0
        rw [vecMaxIdx_zero]
        simp [lt_irrefl]
      · have hspec := vecMaxIdx_spec f j
        have hne : vecMaxIdx f j ≠ j := by omega
        have hlt : f (vecMaxIdx f j) < f j := hmax _ (by omega) hne
        rw [if_pos hlt]
    · have hj' : j < n := by omega
      have ihh := ih hj' (fun i hi hne => hmax i (by omega) hne)
      rw [ihh]
      have hne : f n < f j := hmax n (by omega) (fun h => hjn h.symm)
      rw [if_neg (by simp only [not_lt]; exact le_of_lt hne)]

/-- Computes `max(max(M))` of a 168×2 matrix: per-column maxima, then their maximum. -/
def sss_matMax (L : ℕ → ℕ → ℚ) : ℚ :=
  vecMaxVal (fun c => vecMaxVal (fun i => L i c) 168) 2

/-- Lines 1584–1592: normal CP wins when `max(max(log_lik_nrm)) > max(max(log_lik_ext))`. -/
def sss_cp_is_nrm (log_lik_nrm log_lik_ext : ℕ → ℕ → ℚ) : Bool :=
  sss_matMax log_lik_nrm > sss_matMax log_lik_ext

/-- Lines 1598–1600: under `sampling_carrier_twist` the `k_factor` is recomputed
from the cell's coarse frequency. -/
def sss_k_factor (sampling_carrier_twist : Bool) (fc_requested fc_programmed k_factor : ℚ)
    (cell_freq : ℚ) : ℚ :=
  if sampling_carrier_twist then (fc_requested - cell_freq) / fc_programmed else k_factor

/-- Lines 1601–1611: the pre-wrap frame start from the PSS index, duplex mode
and CP hypothesis (the FDD branch does not depend on the CP type). -/
def sss_frame_start_base (cell : Cell) (tdd_flag : ℤ) (cp_is_nrm : Bool)
    (fs_programmed k : ℚ) : ℚ :=
  if tdd_flag = 1 then
    if cp_is_nrm then cell.ind + (-(2*(128+9)+1)-1920-2) * 16/FS_LTE * fs_programmed * k
    else cell.ind + (-(2*(128+32))-1920-2) * 16/FS_LTE * fs_programmed * k
  else cell.ind + (128+9-960-2) * 16/FS_LTE * fs_programmed * k

/-- Lines 1613–1618: the half-ordering column whose per-column maximum wins;
choosing column 1 shifts the frame start by half a frame. -/
def sss_use_col0 (log_lik : ℕ → ℕ → ℚ) : Bool :=
  vecMaxVal (fun i => log_lik i 0) 168 > vecMaxVal (fun i => log_lik i 1) 168

/-- Line 1620: the wrapped frame start. -/
def sss_frame_start (cell : Cell) (tdd_flag : ℤ) (cp_is_nrm : Bool) (use_col0 : Bool)
    (fs_programmed k : ℚ) : ℚ :=
  wrap
    (sss_frame_start_base cell tdd_flag cp_is_nrm fs_programmed k +
      (if use_col0 then 0 else 9600*k*16/FS_LTE*fs_programmed*k))
    (-(1/2)) ((2*9600 - 1/2)*16/FS_LTE*fs_programmed*k)

/-- Sum of all `2·2·168` log-likelihoods (`L = [vec(log_lik_nrm); vec(log_lik_ext)]`). -/
def sss_lik_sum (log_lik_nrm log_lik_ext : ℕ → ℕ → ℚ) : ℚ :=
  ∑ i ∈ Finset.range 168,
    (log_lik_nrm i 0 + log_lik_nrm i 1 + log_lik_ext i 0 + log_lik_ext i 1)

/-- Sum of the squares of all `2·2·168` log-likelihoods. -/
def sss_lik_sum_sq (log_lik_nrm log_lik_ext : ℕ → ℕ → ℚ) : ℚ :=
  ∑ i ∈ Finset.range 168,
    (log_lik_nrm i 0 ^ 2 + log_lik_nrm i 1 ^ 2 + log_lik_ext i 0 ^ 2 + log_lik_ext i 1 ^ 2)

/-- Line 1629: `mean(L)` over the 672 log-likelihoods. -/
def sss_lik_mean (log_lik_nrm log_lik_ext : ℕ → ℕ → ℚ) : ℚ :=
  sss_lik_sum log_lik_nrm log_lik_ext / 672

/-- Line 1630: `itpp::variance(L)`, the sample variance
`(Σx² − (Σx)²/n)/(n−1)` with `n = 672`. -/
def sss_lik_var (log_lik_nrm log_lik_ext : ℕ → ℕ → ℚ) : ℚ :=
  (sss_lik_sum_sq log_lik_nrm log_lik_ext -
    sss_lik_sum log_lik_nrm log_lik_ext ^ 2 / 672) / 671

/-- The winning column of the winning CP hypothesis, as a 168-vector. -/
def sss_ll (log_lik_nrm log_lik_ext : ℕ → ℕ → ℚ) : ℕ → ℚ :=
  let log_lik := if sss_cp_is_nrm log_lik_nrm log_lik_ext then log_lik_nrm else log_lik_ext
  fun i => log_lik i (if sss_use_col0 log_lik then 0 else 1)

/-- Line 1624: the winning log-likelihood `lik_final`. -/
def sss_lik_final (log_lik_nrm log_lik_ext : ℕ → ℕ → ℚ) : ℚ :=
  vecMaxVal (sss_ll log_lik_nrm log_lik_ext) 168

/-- Line 1624: the ML `n_id_1` estimate. -/
def sss_n_id_1_est (log_lik_nrm log_lik_ext : ℕ → ℕ → ℚ) : ℕ :=
  vecMaxIdx (sss_ll log_lik_nrm log_lik_ext) 168

/-- The σ-threshold gate of line 1631:
`lik_final >= lik_mean + pow(lik_var,0.5)*thresh2_n_sigma`. -/
def sss_gate (log_lik_nrm log_lik_ext : ℕ → ℕ → ℚ) (sqrtQ : ℚ → ℚ)
    (thresh2_n_sigma : ℚ) : Prop :=
  sss_lik_final log_lik_nrm log_lik_ext ≥
    sss_lik_mean log_lik_nrm log_lik_ext +
      sqrtQ (sss_lik_var log_lik_nrm log_lik_ext) * thresh2_n_sigma

instance (a b : ℕ → ℕ → ℚ) (s : ℚ → ℚ) (t : ℚ) : Decidable (sss_gate a b s t) := by
  unfold sss_gate; infer_instance

/-- On a constant vector the returned maximum is that constant. -/
theorem vecMaxVal_const (c : ℚ) (n : ℕ) : vecMaxVal (fun _ => c) n = c := by
  unfold vecMaxVal
  rw [vecMaxIdx_const]

/-- With all log-likelihoods equal to a constant, the winning likelihood is
that constant. -/
theorem sss_lik_final_const (c : ℚ) : sss_lik_final (fun _ _ => c) (fun _ _ => c) = c := by
  unfold sss_lik_final sss_ll sss_cp_is_nrm sss_use_col0
  simp [vecMaxVal_const]

/-- With all log-likelihoods zero, the mean of `L` is zero. -/
theorem sss_lik_mean_zero : sss_lik_mean (fun _ _ => 0) (fun _ _ => 0) = 0 := by
  unfold sss_lik_mean sss_lik_sum
  simp

/-- The decision stage of `sss_detect` (lines 1580–1638): starting from a copy
of the input cell, the fields `n_id_1`, `cp_type`, `frame_start` and
`duplex_mode` are assigned only when the gate passes. -/
def sss_detect_post (cell : Cell) (log_lik_nrm log_lik_ext : ℕ → ℕ → ℚ)
    (thresh2_n_sigma fc_requested fc_programmed fs_programmed : ℚ)
    (sampling_carrier_twist : Bool) (k_factor : ℚ) (tdd_flag : ℤ)
    (sqrtQ : ℚ → ℚ) : Cell :=
  let cp_is_nrm := sss_cp_is_nrm log_lik_nrm log_lik_ext
  let k := sss_k_factor sampling_carrier_twist fc_requested fc_programmed k_factor cell.freq
  let log_lik := if cp_is_nrm then log_lik_nrm else log_lik_ext
  let frame_start := sss_frame_start cell tdd_flag cp_is_nrm (sss_use_col0 log_lik)
    fs_programmed k
  if sss_gate log_lik_nrm log_lik_ext sqrtQ thresh2_n_sigma then
    { cell with
      n_id_1 := (sss_n_id_1_est log_lik_nrm log_lik_ext : ℤ)
      cp_type := if cp_is_nrm then CpType.NORMAL else CpType.EXTENDED
      frame_start := frame_start
      duplex_mode := tdd_flag }
  else cell

/-- C4: `sss_detect` assigns `n_id_1`, `cp_type`, `frame_start` and
`duplex_mode` exactly when the winning likelihood reaches
`mean + thresh2_n_sigma·stddev` of all 672 log-likelihoods; when the gate
fails the returned cell is the input cell, all fields unchanged. -/
theorem sss_detect_gate_iff (cell : Cell) (log_lik_nrm log_lik_ext : ℕ → ℕ → ℚ)
    (thresh2_n_sigma fc_requested fc_programmed fs_programmed : ℚ)
    (sampling_carrier_twist : Bool) (k_factor : ℚ) (tdd_flag : ℤ) (sqrtQ : ℚ → ℚ) :
    (sss_gate log_lik_nrm log_lik_ext sqrtQ thresh2_n_sigma →
      sss_detect_post cell log_lik_nrm log_lik_ext thresh2_n_sigma fc_requested
          fc_programmed fs_programmed sampling_carrier_twist k_factor tdd_flag sqrtQ =
        { cell with
          n_id_1 := (sss_n_id_1_est log_lik_nrm log_lik_ext : ℤ)
          cp_type := if sss_cp_is_nrm log_lik_nrm log_lik_ext then CpType.NORMAL
            else CpType.EXTENDED
          frame_start := sss_frame_start cell tdd_flag
            (sss_cp_is_nrm log_lik_nrm log_lik_ext)
            (sss_use_col0 (if sss_cp_is_nrm log_lik_nrm log_lik_ext then log_lik_nrm
              else log_lik_ext))
            fs_programmed
            (sss_k_factor sampling_carrier_twist fc_requested fc_programmed k_factor cell.freq)
          duplex_mode := tdd_flag }) ∧
    (¬ sss_gate log_lik_nrm log_lik_ext sqrtQ thresh2_n_sigma →
      sss_detect_post cell log_lik_nrm log_lik_ext thresh2_n_sigma fc_requested
          fc_programmed fs_programmed sampling_carrier_twist k_factor tdd_flag sqrtQ = cell) := by
  unfold sss_detect_post
  constructor
  · intro h; simp only [if_pos h]
  · intro h; simp only [if_neg h]

/-- Witness for `sss_detect_gate_iff`: with all log-likelihoods zero,
`sqrtQ = 0` and `thresh2_n_sigma = 0` the gate passes (`0 ≥ 0`), and with
`thresh2_n_sigma = 1, sqrtQ = fun _ => 1` it fails (`0 ≥ 1` is false). -/
theorem sss_detect_gate_iff_witness :
    sss_detect_post {} (fun _ _ => 0) (fun _ _ => 0) 1 0 1 1 false 1 0 (fun _ => 1) =
      {} := by
  have h := sss_detect_gate_iff {} (fun _ _ => 0) (fun _ _ => 0) 1 0 1 1 false 1 0 (fun _ => 1)
  apply h.2
  unfold sss_gate
  rw [sss_lik_final_const, sss_lik_mean_zero]
  norm_num

/-- C6: whenever the gate passes (i.e. `frame_start` is set on the returned
cell), the returned `frame_start` lies in
`[−0.5, (2·9600 − 0.5)·16/FS_LTE·fs_programmed·k_factor)`. -/
theorem sss_frame_start_bound (cell : Cell) (log_lik_nrm log_lik_ext : ℕ → ℕ → ℚ)
    (thresh2_n_sigma fc_requested fc_programmed fs_programmed : ℚ)
    (sampling_carrier_twist : Bool) (k_factor : ℚ) (tdd_flag : ℤ) (sqrtQ : ℚ → ℚ)
    (hgate : sss_gate log_lik_nrm log_lik_ext sqrtQ thresh2_n_sigma)
    (hk : 0 < fs_programmed *
      sss_k_factor sampling_carrier_twist fc_requested fc_programmed k_factor cell.freq) :
    (sss_detect_post cell log_lik_nrm log_lik_ext thresh2_n_sigma fc_requested
        fc_programmed fs_programmed sampling_carrier_twist k_factor tdd_flag sqrtQ).frame_start ∈
      Set.Ico (-(1/2) : ℚ)
        ((2*9600 - 1/2)*16/FS_LTE*fs_programmed*
          (sss_k_factor sampling_carrier_twist fc_requested fc_programmed k_factor cell.freq)) := by
  set k := sss_k_factor sampling_carrier_twist fc_requested fc_programmed k_factor cell.freq
  unfold sss_detect_post
  simp only [if_pos hgate]
  unfold sss_frame_start
  apply wrap_mem_Ico
  have hq : (2*9600 - 1/2)*16/FS_LTE*fs_programmed*k =
      ((2*9600 - 1/2)*16/FS_LTE) * (fs_programmed*k) := by ring
  rw [hq]
  have hc : (0:ℚ) < (2*9600 - 1/2)*16/FS_LTE := by norm_num [FS_LTE]
  nlinarith

/-- Witness for `sss_frame_start_bound` at a concrete passing input. -/
theorem sss_frame_start_bound_witness :
    (sss_detect_post {} (fun _ _ => 0) (fun _ _ => 0) 0 0 1 1920000 false 1 0
        (fun _ => 0)).frame_start ∈
      Set.Ico (-(1/2) : ℚ) ((2*9600 - 1/2)*16/FS_LTE*1920000*
        (sss_k_factor false 0 1 1 (Cell.freq {}))) :=
  sss_frame_start_bound {} (fun _ _ => 0) (fun _ _ => 0) 0 0 1 1920000 false 1 0
    (fun _ => 0)
    (by unfold sss_gate
        rw [sss_lik_final_const, sss_lik_mean_zero]
        norm_num)
    (by norm_num [sss_k_factor])

/-! ## `peak_search` (searcher.cpp 1258–1346)

The working matrix `xc_incoherent_working` (a copy of
`xc_incoherent_collapsed_pow`, 3 × 9600) is embedded as a total function
`ℕ → ℕ → ℚ` consulted on `t < 3`, `idx < 9600`.  `udb10(-8)` and `udb10(-12)`
(from `macros.h`/`dsp.h`, irrational powers of ten) are carried as rational
parameters `udb8`, `udb12`; every theorem holds for each instantiation. -/

/-- Index `idx` is one of the 549 indices `matlab_mod(peak_ind + t, 9600)`,
`t = -274 .. 274`, that the cancellation loops write (`peak_ind`, `idx`
both in `[0, 9600)`). -/
def inBand (peak_ind idx : ℕ) : Prop :=
  ((idx : ℤ) - peak_ind) % 9600 ≤ 274 ∨ ((peak_ind : ℤ) - idx) % 9600 ≤ 274

instance (p i : ℕ) : Decidable (inBand p i) := by unfold inBand; infer_instance

/-- Predicate `inBand` is exactly the set of indices the loop
`for (t=-274;t<=274;t++) ... matlab_mod(peak_ind+t,9600)` touches. -/
theorem inBand_iff (p i : ℕ) (hp : p < 9600) (hi : i < 9600) :
    inBand p i ↔ ∃ t : ℤ, -274 ≤ t ∧ t ≤ 274 ∧ (i : ℤ) = matlab_mod ((p : ℤ) + t) 9600 := by
  unfold inBand matlab_mod
  constructor
  · intro h
    rcases h with h | h
    · exact ⟨((i : ℤ) - p) % 9600, by omega, by omega, by omega⟩
    · exact ⟨-(((p : ℤ) - i) % 9600), by omega, by omega, by omega⟩
  · rintro ⟨t, ht1, ht2, ht3⟩
    omega

/-- Static inputs of `peak_search` other than the working power matrix:
detection thresholds `Z_th1`, frequency search set, collapsed frequency
indices, the `xc_incoherent_single` tensor, the delay-spread arm, the
capture-time frequencies, and the two dB factors. -/
structure PeakSearchArgs where
  Z_th1 : ℕ → ℚ
  f_search_set : ℕ → ℚ
  frq : ℕ → ℕ → ℕ           -- xc_incoherent_collapsed_frq
  single : ℕ → ℕ → ℕ → ℚ    -- xc_incoherent_single
  ds_comb_arm : ℕ
  fc_requested : ℚ := 0
  fc_programmed : ℚ := 0
  udb8 : ℚ                   -- udb10(-8.0)
  udb12 : ℚ                  -- udb10(-12.0)

/-- Line 1278: per-row maximum of the working matrix over the 9600 offsets
(`max(transpose(xc_incoherent_working), peak_ind_v)`). -/
def rowMaxV (M : ℕ → ℕ → ℚ) (t : ℕ) : ℚ := M t (vecMaxIdx (M t) 9600)

/-- Line 1280: `peak_n_id_2`, the first row attaining the peak power. -/
def peakN (M : ℕ → ℕ → ℚ) : ℕ := vecMaxIdx (rowMaxV M) 3

/-- Line 1280: the peak power `peak_pow`, the maximum of the three row maxima. -/
def peakPow (M : ℕ → ℕ → ℚ) : ℚ := rowMaxV M (peakN M)

/-- Line 1281: `peak_ind`, the first offset attaining the row maximum of the
peak row (`peak_ind_v(peak_n_id_2)`). -/
def peakInd (M : ℕ → ℕ → ℚ) : ℕ := vecMaxIdx (M (peakN M)) 9600

/-- Lines 1293–1301: refine the peak index to the strongest
`xc_incoherent_single` bin within `±ds_comb_arm` of `peak_ind`.  `best_pow`
starts at `-INFINITY` (the first bin always replaces it) and `best_ind` at
`-1`.  The loop counter is `uint16`, so when `peak_ind < ds_comb_arm` the
truncated start value exceeds the bound and the loop body never runs,
leaving `best_ind = -1`. -/
def bestInd (A : PeakSearchArgs) (pn pi : ℕ) : ℤ :=
  if pi < A.ds_comb_arm then -1
  else
    let foi := A.frq pn pi
    let r := (List.range (2 * A.ds_comb_arm + 1)).foldl
      (fun (b : Option (ℚ × ℕ)) (j : ℕ) =>
        let tw := (pi - A.ds_comb_arm + j) % 9600
        match b with
        | none => some (A.single pn tw foi, tw)
        | some bv => if A.single pn tw foi > bv.1 then some (A.single pn tw foi, tw) else bv)
      none
    match r with
    | none => -1
    | some bv => (bv.2 : ℤ)

/-- Lines 1317–1320: zero the same-`n_id_2` row within ±274 of the peak. -/
def suppressSame (M : ℕ → ℕ → ℚ) (pn pi : ℕ) : ℕ → ℕ → ℚ :=
  fun r c => if r = pn ∧ inBand pi c then 0 else M r c

/-- Lines 1321–1333 *as written*: the loop over `n = 0..3` skips
`n == peak_n_id_2`, but its body indexes row `peak_n_id_2` (not row `n`);
since the body runs for at least one `n` and its writes are idempotent, the
`n`-loop collapses to this single conditional pass over row `peak_n_id_2`. -/
def suppressOther (M : ℕ → ℕ → ℚ) (pn pi : ℕ) (thresh : ℚ) : ℕ → ℕ → ℚ :=
  fun r c => if r = pn ∧ inBand pi c ∧ M r c < thresh then 0 else M r c

/-- Lines 1337–1344: zero every bin (all rows, all offsets) below
`peak_pow·udb10(-12)`. -/
def suppressAll (M : ℕ → ℕ → ℚ) (thresh : ℚ) : ℕ → ℕ → ℚ :=
  fun r c => if M r c < thresh then 0 else M r c

/-- The complete false-peak cancellation performed after emitting one cell. -/
def suppress (M : ℕ → ℕ → ℚ) (pn pi : ℕ) (peak_pow udb8 udb12 : ℚ) : ℕ → ℕ → ℚ :=
  suppressAll (suppressOther (suppressSame M pn pi) pn pi (peak_pow * udb8))
    (peak_pow * udb12)

/-- The `for(;;)` loop of `peak_search`, fuel-indexed.  Returns the emitted
cells and whether the loop reached its `break` (peak power below the
per-index threshold) within the given fuel. -/
def peakSearchRun (A : PeakSearchArgs) : ℕ → (ℕ → ℕ → ℚ) → List Cell × Bool
  | 0, _ => ([], false)
  | fuel+1, M =>
    if peakPow M < A.Z_th1 (peakInd M) then ([], true)
    else
      ({ fc_requested := A.fc_requested
         fc_programmed := A.fc_programmed
         pss_pow := peakPow M
         ind := ((bestInd A (peakN M) (peakInd M) : ℤ) : ℚ)
         freq := A.f_search_set (A.frq (peakN M) (peakInd M))
         n_id_2 := (peakN M : ℤ) } ::
          (peakSearchRun A fuel
            (suppress M (peakN M) (peakInd M) (peakPow M) A.udb8 A.udb12)).1,
       (peakSearchRun A fuel
         (suppress M (peakN M) (peakInd M) (peakPow M) A.udb8 A.udb12)).2)

/-- The `pss_pow` fields of the cells `peak_search` pushes, in push order. -/
def peakSearchPows (A : PeakSearchArgs) (fuel : ℕ) (M : ℕ → ℕ → ℚ) : List ℚ :=
  ((peakSearchRun A fuel M).1).map Cell.pss_pow

/-- The loop terminates: some finite fuel suffices to reach the `break`. -/
def peakSearchTerminates (A : PeakSearchArgs) (M : ℕ → ℕ → ℚ) : Prop :=
  ∃ fuel, (peakSearchRun A fuel M).2 = true

/-! ### Generic facts about the peak and the suppression -/

/-- Each row maximum dominates every entry of its row. -/
theorem rowMaxV_ge (M : ℕ → ℕ → ℚ) (t : ℕ) : ∀ i < 9600, M t i ≤ rowMaxV M t := by
  intro i hi
  unfold rowMaxV
  exact (vecMaxIdx_spec (M t) 9600).2.1 i hi

/-- The peak power dominates every row maximum. -/
theorem rowMaxV_le_peak (M : ℕ → ℕ → ℚ) : ∀ t < 3, rowMaxV M t ≤ peakPow M := by
  intro t ht
  unfold peakPow peakN
  exact (vecMaxIdx_spec (rowMaxV M) 3).2.1 t ht

/-- The global peak dominates every bin of the 3 × 9600 working matrix. -/
theorem peakPow_ge (M : ℕ → ℕ → ℚ) :
    ∀ t < 3, ∀ i < 9600, M t i ≤ peakPow M := by
  intro t ht i hi
  exact le_trans (rowMaxV_ge M t i hi) (rowMaxV_le_peak M t ht)

/-- The global peak value is the matrix entry at `(peakN, peakInd)`, and those
coordinates are in range. -/
theorem peakPow_attain (M : ℕ → ℕ → ℚ) :
    peakPow M = M (peakN M) (peakInd M) ∧ peakN M < 3 ∧ peakInd M < 9600 := by
  refine ⟨?_, ?_, ?_⟩
  · unfold peakPow rowMaxV peakInd
    rfl
  · have h := (vecMaxIdx_spec (rowMaxV M) 3).2.2
    unfold peakN
    omega
  · have h := (vecMaxIdx_spec (M (peakN M)) 9600).2.2
    unfold peakInd
    omega

/-- Every suppressed bin is either zeroed or untouched. -/
theorem suppress_cases (M : ℕ → ℕ → ℚ) (pn pi : ℕ) (pp u8 u12 : ℚ) (r c : ℕ) :
    suppress M pn pi pp u8 u12 r c = 0 ∨ suppress M pn pi pp u8 u12 r c = M r c := by
  unfold suppress suppressAll suppressOther suppressSame
  by_cases h1 : r = pn ∧ inBand pi c
  · rw [if_pos h1]
    simp only [ite_self]
    left
    trivial
  · rw [if_neg h1]
    rw [if_neg (fun hx : r = pn ∧ inBand pi c ∧ M r c < pp * u8 => h1 ⟨hx.1, hx.2.1⟩)]
    by_cases h2 : M r c < pp * u12
    · rw [if_pos h2]; exact Or.inl rfl
    · rw [if_neg h2]; exact Or.inr rfl

/-- The peak bin itself is always zeroed by the cancellation. -/
theorem suppress_peak_zero (M : ℕ → ℕ → ℚ) (pn pi : ℕ) (pp u8 u12 : ℚ) :
    suppress M pn pi pp u8 u12 pn pi = 0 := by
  have hband : inBand pi pi := by unfold inBand; omega
  have h1 : suppressSame M pn pi pn pi = 0 := by
    unfold suppressSame
    rw [if_pos (And.intro rfl hband)]
  have h2 : suppressOther (suppressSame M pn pi) pn pi (pp * u8) pn pi = 0 := by
    unfold suppressOther
    rw [h1]
    exact ite_self 0
  unfold suppress suppressAll
  rw [h2]
  exact ite_self 0

/-! ### Step equations of the peak-search loop -/

/-- Breaking step: the remaining maximum is below its per-index threshold. -/
theorem peakSearchRun_break (A : PeakSearchArgs) (n : ℕ) (M : ℕ → ℕ → ℚ)
    (h : peakPow M < A.Z_th1 (peakInd M)) :
    peakSearchRun A (n+1) M = ([], true) := by
  simp only [peakSearchRun, if_pos h]

/-- Emitting step: one cell with `pss_pow = peakPow M` is pushed, then the
loop continues on the suppressed matrix. -/
theorem peakSearchPows_succ (A : PeakSearchArgs) (n : ℕ) (M : ℕ → ℕ → ℚ)
    (h : ¬ peakPow M < A.Z_th1 (peakInd M)) :
    peakSearchPows A (n+1) M =
      peakPow M ::
        peakSearchPows A n (suppress M (peakN M) (peakInd M) (peakPow M) A.udb8 A.udb12) := by
  unfold peakSearchPows
  simp only [peakSearchRun, if_neg h]
  simp

/-- The termination flag propagates through an emitting step. -/
theorem peakSearchRun_snd_succ (A : PeakSearchArgs) (n : ℕ) (M : ℕ → ℕ → ℚ)
    (h : ¬ peakPow M < A.Z_th1 (peakInd M)) :
    (peakSearchRun A (n+1) M).2 =
      (peakSearchRun A n (suppress M (peakN M) (peakInd M) (peakPow M) A.udb8 A.udb12)).2 := by
  simp only [peakSearchRun, if_neg h]

/-- Suppression preserves non-negativity of the working matrix. -/
theorem suppress_nonneg (M : ℕ → ℕ → ℚ) (pn pi : ℕ) (pp u8 u12 : ℚ)
    (hM : ∀ t i, 0 ≤ M t i) : ∀ t i, 0 ≤ suppress M pn pi pp u8 u12 t i := by
  intro t i
  rcases suppress_cases M pn pi pp u8 u12 t i with h | h <;> rw [h]
  all_goals first | exact hM t i | norm_num

/-- On a non-negative matrix the peak power is non-negative. -/
theorem peakPow_nonneg (M : ℕ → ℕ → ℚ) (hM : ∀ t i, 0 ≤ M t i) : 0 ≤ peakPow M := by
  rw [(peakPow_attain M).1]
  exact hM _ _

/-- After suppression the new peak can only be lower. -/
theorem peakPow_suppress_le (M : ℕ → ℕ → ℚ) (u8 u12 : ℚ) (hM : ∀ t i, 0 ≤ M t i) :
    peakPow (suppress M (peakN M) (peakInd M) (peakPow M) u8 u12) ≤ peakPow M := by
  set M' := suppress M (peakN M) (peakInd M) (peakPow M) u8 u12 with hM'
  have hatt := peakPow_attain M'
  rw [hatt.1]
  rcases suppress_cases M (peakN M) (peakInd M) (peakPow M) u8 u12 (peakN M') (peakInd M') with
    h | h
  · rw [← hM'] at h
    rw [h]
    exact peakPow_nonneg M hM
  · rw [← hM'] at h
    rw [h]
    exact peakPow_ge M (peakN M') hatt.2.1 (peakInd M') hatt.2.2

/-- Emitted powers are bounded by the current peak and are non-increasing. -/
theorem peakSearchPows_bound (A : PeakSearchArgs) :
    ∀ fuel (M : ℕ → ℕ → ℚ), (∀ t i, 0 ≤ M t i) →
      List.Pairwise (· ≥ ·) (peakSearchPows A fuel M) ∧
      ∀ p ∈ peakSearchPows A fuel M, p ≤ peakPow M := by
  intro fuel
  induction fuel with
  | zero =>
    intro M _
    constructor
    · exact List.Pairwise.nil
    · intro p hp
      simp [peakSearchPows, peakSearchRun] at hp
  | succ n ih =>
    intro M hM
    by_cases hb : peakPow M < A.Z_th1 (peakInd M)
    · have he : peakSearchPows A (n+1) M = [] := by
        unfold peakSearchPows
        rw [peakSearchRun_break A n M hb]
        rfl
      rw [he]
      exact ⟨List.Pairwise.nil, by simp⟩
    · rw [peakSearchPows_succ A n M hb]
      have hM' := suppress_nonneg M (peakN M) (peakInd M) (peakPow M) A.udb8 A.udb12 hM
      have ihh := ih _ hM'
      have hle := peakPow_suppress_le M A.udb8 A.udb12 hM
      constructor
      · refine List.Pairwise.cons (fun p hp => ?_) ihh.1
        exact le_trans (ihh.2 p hp) hle
      · intro p hp
        rcases List.mem_cons.mp hp with rfl | hp'
        · exact le_refl _
        · exact le_trans (ihh.2 p hp') hle

/-- C2 (amended): on a non-negative working matrix (the entries are
incoherently combined powers), the cells pushed by `peak_search` carry
non-increasing — not necessarily strictly decreasing — `pss_pow`, for every
fuel bound on the loop. -/
theorem peak_search_pows_nonincreasing (A : PeakSearchArgs) (fuel : ℕ) (M : ℕ → ℕ → ℚ)
    (hM : ∀ t i, 0 ≤ M t i) :
    List.Pairwise (· ≥ ·) (peakSearchPows A fuel M) :=
  (peakSearchPows_bound A fuel M hM).1

/-! ### Concrete matrices for the counterexamples -/

/-- Concrete peak-search arguments: unit thresholds, rational stand-ins for
`udb10(-8) ≈ 0.158489` and `udb10(-12) ≈ 0.063096`. -/
def argsC : PeakSearchArgs :=
  { Z_th1 := fun _ => 1, f_search_set := fun _ => 0, frq := fun _ _ => 0,
    single := fun _ _ _ => 0, ds_comb_arm := 2,
    udb8 := 158489/1000000, udb12 := 63096/1000000 }

/-- Same arguments with an all-zero threshold vector. -/
def argsZ : PeakSearchArgs :=
  { Z_th1 := fun _ => 0, f_search_set := fun _ => 0, frq := fun _ _ => 0,
    single := fun _ _ _ => 0, ds_comb_arm := 2,
    udb8 := 158489/1000000, udb12 := 63096/1000000 }

/-- Two equal-power peaks (5) on different PSS rows, far apart. -/
def Mtie : ℕ → ℕ → ℚ :=
  fun t idx => if t = 0 ∧ idx = 100 then 5 else if t = 1 ∧ idx = 2000 then 5 else 0

/-- Matrix `Mtie` after the first peak (row 0, index 100) has been cancelled. -/
def Mtie2 : ℕ → ℕ → ℚ := fun t idx => if t = 1 ∧ idx = 2000 then 5 else 0

/-- The all-zero working matrix. -/
def Mzero : ℕ → ℕ → ℚ := fun _ _ => 0

/-- A peak of power 1 at `(0, 1000)` with an equal-power peer on PSS row 1 at
the same index — the peer is within ±274 and within 8 dB of the peak. -/
def Mpeer : ℕ → ℕ → ℚ := fun t idx => if (t = 0 ∨ t = 1) ∧ idx = 1000 then 1 else 0

/-- A three-element scan spelled out. -/
theorem vecMaxIdx_three (f : ℕ → ℚ) :
    vecMaxIdx f 3 =
      if f 2 > f (if f 1 > f 0 then 1 else 0) then 2 else if f 1 > f 0 then 1 else 0 := by
  have h1 : vecMaxIdx f 1 = 0 := by
    show vecMaxIdx f (0+1) = 0
    rw [vecMaxIdx_succ, vecMaxIdx_zero]
    simp
  have h2 : vecMaxIdx f 2 = if f 1 > f 0 then 1 else 0 := by
    show vecMaxIdx f (1+1) = _
    rw [vecMaxIdx_succ, h1]
  show vecMaxIdx f (2+1) = _
  rw [vecMaxIdx_succ, h2]

/-! ### Evaluation of the loop on `Mtie` -/

theorem Mtie_row0_idx : vecMaxIdx (Mtie 0) 9600 = 100 :=
  vecMaxIdx_unique (Mtie 0) 9600 100 (by norm_num)
    (fun i _ hne => by norm_num [Mtie, hne])

theorem Mtie_row0 : rowMaxV Mtie 0 = 5 := by
  unfold rowMaxV
  rw [Mtie_row0_idx]
  norm_num [Mtie]

theorem Mtie_row1_idx : vecMaxIdx (Mtie 1) 9600 = 2000 :=
  vecMaxIdx_unique (Mtie 1) 9600 2000 (by norm_num)
    (fun i _ hne => by norm_num [Mtie, hne])

theorem Mtie_row1 : rowMaxV Mtie 1 = 5 := by
  unfold rowMaxV
  rw [Mtie_row1_idx]
  norm_num [Mtie]

theorem Mtie_row2 : rowMaxV Mtie 2 = 0 := by
  unfold rowMaxV
  rw [vecMaxIdx_congr (Mtie 2) (fun _ => 0) 9600 (fun i => by norm_num [Mtie]),
    vecMaxIdx_const]
  norm_num [Mtie]

theorem Mtie_peakN : peakN Mtie = 0 := by
  unfold peakN
  rw [vecMaxIdx_three, Mtie_row0, Mtie_row1, Mtie_row2]
  norm_num [Mtie_row0]

theorem Mtie_peakPow : peakPow Mtie = 5 := by
  unfold peakPow
  rw [Mtie_peakN, Mtie_row0]

theorem Mtie_peakInd : peakInd Mtie = 100 := by
  unfold peakInd
  rw [Mtie_peakN, Mtie_row0_idx]

theorem Mtie_suppress :
    suppress Mtie 0 100 5 (158489/1000000) (63096/1000000) = Mtie2 := by
  funext r c
  unfold suppress suppressAll suppressOther suppressSame
  by_cases hr : r = 0 ∧ inBand 100 c
  · rw [if_pos hr]
    simp only [ite_self]
    rw [hr.1]
    norm_num [Mtie2]
  · rw [if_neg hr]
    rw [if_neg
      (fun hx : r = 0 ∧ inBand 100 c ∧ Mtie r c < 5 * (158489/1000000) => hr ⟨hx.1, hx.2.1⟩)]
    by_cases h12 : r = 1 ∧ c = 2000
    · have hv : Mtie r c = 5 := by norm_num [Mtie, h12.1, h12.2]
      rw [hv, if_neg (by norm_num)]
      norm_num [Mtie2, h12.1, h12.2]
    · have hnot : ¬(r = 0 ∧ c = 100) := by
        rintro ⟨rfl, rfl⟩
        exact hr ⟨rfl, by unfold inBand; norm_num⟩
      have hv : Mtie r c = 0 := by
        unfold Mtie
        rw [if_neg hnot, if_neg h12]
      rw [hv, if_pos (by norm_num)]
      unfold Mtie2
      rw [if_neg h12]

/-! ### Evaluation of the loop on `Mtie2` and `Mzero` -/

theorem Mtie2_row0 : rowMaxV Mtie2 0 = 0 := by
  unfold rowMaxV
  rw [vecMaxIdx_congr (Mtie2 0) (fun _ => 0) 9600 (fun i => by norm_num [Mtie2]),
    vecMaxIdx_const]
  norm_num [Mtie2]

theorem Mtie2_row1_idx : vecMaxIdx (Mtie2 1) 9600 = 2000 :=
  vecMaxIdx_unique (Mtie2 1) 9600 2000 (by norm_num)
    (fun i _ hne => by norm_num [Mtie2, hne])

theorem Mtie2_row1 : rowMaxV Mtie2 1 = 5 := by
  unfold rowMaxV
  rw [Mtie2_row1_idx]
  norm_num [Mtie2]

theorem Mtie2_row2 : rowMaxV Mtie2 2 = 0 := by
  unfold rowMaxV
  rw [vecMaxIdx_congr (Mtie2 2) (fun _ => 0) 9600 (fun i => by norm_num [Mtie2]),
    vecMaxIdx_const]
  norm_num [Mtie2]

theorem Mtie2_peakN : peakN Mtie2 = 1 := by
  unfold peakN
  rw [vecMaxIdx_three, Mtie2_row0, Mtie2_row1, Mtie2_row2]
  norm_num [Mtie2_row1]

theorem Mtie2_peakPow : peakPow Mtie2 = 5 := by
  unfold peakPow
  rw [Mtie2_peakN, Mtie2_row1]

theorem Mtie2_peakInd : peakInd Mtie2 = 2000 := by
  unfold peakInd
  rw [Mtie2_peakN, Mtie2_row1_idx]

theorem Mtie2_suppress :
    suppress Mtie2 1 2000 5 (158489/1000000) (63096/1000000) = Mzero := by
  funext r c
  unfold suppress suppressAll suppressOther suppressSame
  by_cases hr : r = 1 ∧ inBand 2000 c
  · rw [if_pos hr]
    simp only [ite_self]
    norm_num [Mzero]
  · rw [if_neg hr]
    rw [if_neg
      (fun hx : r = 1 ∧ inBand 2000 c ∧ Mtie2 r c < 5 * (158489/1000000) => hr ⟨hx.1, hx.2.1⟩)]
    have hv : Mtie2 r c = 0 := by
      unfold Mtie2
      rw [if_neg (by rintro ⟨rfl, rfl⟩; exact hr ⟨rfl, by unfold inBand; norm_num⟩)]
    rw [hv, if_pos (by norm_num)]
    norm_num [Mzero]

theorem Mzero_peakPow : peakPow Mzero = 0 := rfl

theorem Mzero_suppress (pn pi : ℕ) (u8 u12 : ℚ) :
    suppress Mzero pn pi 0 u8 u12 = Mzero := by
  funext r c
  unfold suppress suppressAll suppressOther suppressSame Mzero
  simp only [ite_self]

/-- The full emitted-power trace on `Mtie`: two cells of equal power 5. -/
theorem Mtie_pows : peakSearchPows argsC 3 Mtie = [5, 5] := by
  have hb1 : ¬ peakPow Mtie < argsC.Z_th1 (peakInd Mtie) := by
    rw [Mtie_peakPow]
    norm_num [argsC]
  rw [peakSearchPows_succ argsC 2 Mtie hb1, Mtie_peakPow, Mtie_peakN, Mtie_peakInd]
  have hsup1 : suppress Mtie 0 100 5 argsC.udb8 argsC.udb12 = Mtie2 := Mtie_suppress
  rw [hsup1]
  have hb2 : ¬ peakPow Mtie2 < argsC.Z_th1 (peakInd Mtie2) := by
    rw [Mtie2_peakPow]
    norm_num [argsC]
  rw [peakSearchPows_succ argsC 1 Mtie2 hb2, Mtie2_peakPow, Mtie2_peakN, Mtie2_peakInd]
  have hsup2 : suppress Mtie2 1 2000 5 argsC.udb8 argsC.udb12 = Mzero := Mtie2_suppress
  rw [hsup2]
  have hb3 : peakPow Mzero < argsC.Z_th1 (peakInd Mzero) := by
    rw [Mzero_peakPow]
    norm_num [argsC]
  unfold peakSearchPows
  rw [peakSearchRun_break argsC 0 Mzero hb3]
  rfl

/-- C2 counterexample: on `Mtie` (two tied peaks of power 5 on different PSS
rows) `peak_search` pushes two cells with *equal* `pss_pow`, so the emitted
list is not strictly decreasing. -/
theorem peak_search_not_strictly_decreasing :
    ¬ List.Pairwise (fun a b : ℚ => a > b) (peakSearchPows argsC 3 Mtie) := by
  rw [Mtie_pows]
  intro h
  rcases List.pairwise_cons.mp h with ⟨h5, _⟩
  exact absurd (h5 5 (by simp)) (by norm_num)

/-- Witness for `peak_search_pows_nonincreasing` at the concrete tied input. -/
theorem peak_search_pows_nonincreasing_witness :
    (∀ t i, (0:ℚ) ≤ Mtie t i) ∧
      List.Pairwise (· ≥ ·) (peakSearchPows argsC 3 Mtie) := by
  have hM : ∀ t i, (0:ℚ) ≤ Mtie t i := by
    intro t i
    unfold Mtie
    split_ifs <;> norm_num
  exact ⟨hM, peak_search_pows_nonincreasing argsC 3 Mtie hM⟩

/-! ### Termination (C9) -/

theorem peakSearchRun_argsZ_false : ∀ n, (peakSearchRun argsZ n Mzero).2 = false := by
  intro n
  induction n with
  | zero => rfl
  | succ n ih =>
    have hb : ¬ peakPow Mzero < argsZ.Z_th1 (peakInd Mzero) := by
      rw [Mzero_peakPow]
      norm_num [argsZ]
    rw [peakSearchRun_snd_succ argsZ n Mzero hb, Mzero_peakPow, Mzero_suppress]
    exact ih

/-- C9 counterexample: with the all-zero power matrix (non-negative) and the
all-zero threshold vector, the global maximum 0 is never *below* its
threshold, so the loop never breaks: `peak_search` does not terminate. -/
theorem peak_search_nontermination_zero_threshold :
    ¬ peakSearchTerminates argsZ Mzero := by
  rintro ⟨n, hn⟩
  rw [peakSearchRun_argsZ_false n] at hn
  exact Bool.false_ne_true hn

/-- The set of nonzero bins of the working matrix. -/
def suppSet (M : ℕ → ℕ → ℚ) : Finset (ℕ × ℕ) :=
  (Finset.range 3 ×ˢ Finset.range 9600).filter (fun p => M p.1 p.2 ≠ 0)

theorem suppSet_suppress_subset (M : ℕ → ℕ → ℚ) (pn pi : ℕ) (pp u8 u12 : ℚ) :
    suppSet (suppress M pn pi pp u8 u12) ⊆ suppSet M := by
  intro x hx
  rw [suppSet, Finset.mem_filter] at hx ⊢
  refine ⟨hx.1, ?_⟩
  rcases suppress_cases M pn pi pp u8 u12 x.1 x.2 with h | h
  · exact absurd h hx.2
  · rw [← h]
    exact hx.2

theorem suppSet_mem_of (M : ℕ → ℕ → ℚ) (a b : ℕ) (ha : a < 3) (hb : b < 9600)
    (hne : M a b ≠ 0) : (a, b) ∈ suppSet M := by
  rw [suppSet, Finset.mem_filter, Finset.mem_product]
  exact ⟨⟨Finset.mem_range.mpr ha, Finset.mem_range.mpr hb⟩, hne⟩

theorem suppSet_not_mem_of (M : ℕ → ℕ → ℚ) (a b : ℕ) (h : M a b = 0) :
    (a, b) ∉ suppSet M := by
  rw [suppSet, Finset.mem_filter]
  rintro ⟨-, hne⟩
  exact hne h

/-- The peak bin survives in `suppSet` before the cancellation but not after. -/
theorem suppSet_peak_mem (A : PeakSearchArgs) (M : ℕ → ℕ → ℚ)
    (hZ : ∀ i, 0 < A.Z_th1 i) (hb : ¬ peakPow M < A.Z_th1 (peakInd M)) :
    (peakN M, peakInd M) ∈ suppSet M := by
  have hatt := peakPow_attain M
  refine suppSet_mem_of M (peakN M) (peakInd M) hatt.2.1 hatt.2.2 ?_
  rw [← hatt.1]
  exact ne_of_gt (lt_of_lt_of_le (hZ (peakInd M)) (le_of_not_lt hb))

/-- C9 (amended): when every per-index threshold is strictly positive
(`Z_th1` is built from received power scaled by a positive σ factor) and the
power matrix is non-negative, the peak-search loop terminates: each emitting
iteration zeroes the nonzero peak bin, so after finitely many iterations the
remaining maximum falls below its threshold and the loop breaks. -/
theorem peak_search_terminates (A : PeakSearchArgs) (M : ℕ → ℕ → ℚ)
    (hZ : ∀ i, 0 < A.Z_th1 i) (hM : ∀ t i, 0 ≤ M t i) :
    peakSearchTerminates A M := by
  suffices h : ∀ k (M : ℕ → ℕ → ℚ), (suppSet M).card ≤ k → peakSearchTerminates A M from
    h (suppSet M).card M le_rfl
  intro k
  induction k with
  | zero =>
    intro M hcard
    by_cases hb : peakPow M < A.Z_th1 (peakInd M)
    · exact ⟨1, by rw [peakSearchRun_break A 0 M hb]⟩
    · exfalso
      have hmem := suppSet_peak_mem A M hZ hb
      have hempty : suppSet M = ∅ := Finset.card_eq_zero.mp (Nat.le_zero.mp hcard)
      rw [hempty] at hmem
      exact absurd hmem (Finset.not_mem_empty _)
  | succ k ih =>
    intro M hcard
    by_cases hb : peakPow M < A.Z_th1 (peakInd M)
    · exact ⟨1, by rw [peakSearchRun_break A 0 M hb]⟩
    · have hmem := suppSet_peak_mem A M hZ hb
      have hnot : (peakN M, peakInd M) ∉
          suppSet (suppress M (peakN M) (peakInd M) (peakPow M) A.udb8 A.udb12) :=
        suppSet_not_mem_of _ (peakN M) (peakInd M)
          (suppress_peak_zero M (peakN M) (peakInd M) (peakPow M) A.udb8 A.udb12)
      have hssub : suppSet (suppress M (peakN M) (peakInd M) (peakPow M) A.udb8 A.udb12) ⊂
          suppSet M :=
        Finset.ssubset_iff_of_subset
          (suppSet_suppress_subset M (peakN M) (peakInd M) (peakPow M) A.udb8 A.udb12)
          |>.mpr ⟨(peakN M, peakInd M), hmem, hnot⟩
      have hcard' :
          (suppSet (suppress M (peakN M) (peakInd M) (peakPow M) A.udb8 A.udb12)).card ≤ k := by
        have := Finset.card_lt_card hssub
        omega
      obtain ⟨n, hn⟩ := ih _ hcard'
      exact ⟨n+1, by rw [peakSearchRun_snd_succ A n M hb]; exact hn⟩

/-- Witness for `peak_search_terminates` on a concrete input with positive
thresholds. -/
theorem peak_search_terminates_witness :
    (∀ i, (0:ℚ) < argsC.Z_th1 i) ∧ (∀ t i, (0:ℚ) ≤ Mzero t i) ∧
      peakSearchTerminates argsC Mzero := by
  have hZ : ∀ i, (0:ℚ) < argsC.Z_th1 i := fun i => by norm_num [argsC]
  have hM : ∀ t i, (0:ℚ) ≤ Mzero t i := fun t i => le_of_eq rfl
  exact ⟨hZ, hM, peak_search_terminates argsC Mzero hZ hM⟩

/-! ### The "other PSS" cancellation bug (C3) -/

theorem Mpeer_row0_idx : vecMaxIdx (Mpeer 0) 9600 = 1000 :=
  vecMaxIdx_unique (Mpeer 0) 9600 1000 (by norm_num)
    (fun i _ hne => by norm_num [Mpeer, hne])

theorem Mpeer_row0 : rowMaxV Mpeer 0 = 1 := by
  unfold rowMaxV
  rw [Mpeer_row0_idx]
  norm_num [Mpeer]

theorem Mpeer_row1_idx : vecMaxIdx (Mpeer 1) 9600 = 1000 :=
  vecMaxIdx_unique (Mpeer 1) 9600 1000 (by norm_num)
    (fun i _ hne => by norm_num [Mpeer, hne])

theorem Mpeer_row1 : rowMaxV Mpeer 1 = 1 := by
  unfold rowMaxV
  rw [Mpeer_row1_idx]
  norm_num [Mpeer]

theorem Mpeer_row2 : rowMaxV Mpeer 2 = 0 := by
  unfold rowMaxV
  rw [vecMaxIdx_congr (Mpeer 2) (fun _ => 0) 9600 (fun i => by norm_num [Mpeer]),
    vecMaxIdx_const]
  norm_num [Mpeer]

theorem Mpeer_peakN : peakN Mpeer = 0 := by
  unfold peakN
  rw [vecMaxIdx_three, Mpeer_row0, Mpeer_row1, Mpeer_row2]
  norm_num [Mpeer_row0]

theorem Mpeer_peakPow : peakPow Mpeer = 1 := by
  unfold peakPow
  rw [Mpeer_peakN, Mpeer_row0]

theorem Mpeer_peakInd : peakInd Mpeer = 1000 := by
  unfold peakInd
  rw [Mpeer_peakN, Mpeer_row0_idx]

/-- C3: the peak is found at `(n_id_2, idx) = (0, 1000)` with power 1, the
peer bin `(1, 1000)` on another PSS row is at the same index and within 8 dB
of the peak (`1 ≥ 1·udb10(-8)`), yet the cancellation leaves that bin
unchanged at power 1: the "other `n_id_2`" loop (lines 1324–1333) reads and
writes row `peak_n_id_2` instead of row `n`, and tests `< thresh` instead of
`≥ thresh`, so it never zeroes any bin on another PSS row. -/
theorem peak_search_other_pss_not_suppressed :
    peakPow Mpeer = 1 ∧ peakN Mpeer = 0 ∧ peakInd Mpeer = 1000 ∧
    Mpeer 1 1000 ≥ peakPow Mpeer * argsC.udb8 ∧
    suppress Mpeer (peakN Mpeer) (peakInd Mpeer) (peakPow Mpeer) argsC.udb8 argsC.udb12
        1 1000 = Mpeer 1 1000 := by
  refine ⟨Mpeer_peakPow, Mpeer_peakN, Mpeer_peakInd, ?_, ?_⟩
  · rw [Mpeer_peakPow]
    norm_num [Mpeer, argsC]
  · rw [Mpeer_peakN, Mpeer_peakInd, Mpeer_peakPow]
    unfold suppress suppressAll suppressOther suppressSame
    rw [if_neg (fun hx : (1:ℕ) = 0 ∧ inBand 1000 1000 => by omega)]
    rw [if_neg
      (fun hx : (1:ℕ) = 0 ∧ inBand 1000 1000 ∧ Mpeer 1 1000 < 1 * argsC.udb8 => by omega)]
    rw [if_neg (by norm_num [Mpeer, argsC])]

/-! ## `sampling_ppm_f_search_set_by_pss` (searcher.cpp 758–1100)

The PPM / frequency pre-search.  The numeric correlators it calls —
`pss_moving_corr` (lines 523–665) and `pss_fix_location_corr` (475–518) —
normalize windows to unit power (a square root) and correlate against the
ROM PSS templates, which is not expressible over `ℚ`; they enter the
embedding as oracle inputs: `hits` is the `(hit_pss_fo_set_idx, hit_time_idx,
corr_val)` triple list produced by `pss_moving_corr` (empty exactly when no
window exceeded the threshold `th`, since the outputs are only assigned after
the threshold break at lines 586–591), and `fixCorr` maps a search window to
the `(hit_time_idx, max_val)` pair of `pss_fix_location_corr`.  The PPM
aggregation tail (lines 958 onward) is abstracted as a continuation `cont`;
the claim concerns only the two early returns, which hold for every
continuation. -/

/-- Line 774: `th = 25*265.1154`. -/
def pss_th : ℚ := 25 * (2651154/10000)

/-- Line 913: `min_dist = floor((len/pss_period)·(1/2))` with `pss_period = 9600`. -/
def ppm_min_dist (len : ℕ) : ℤ := ⌊((len : ℚ) / 9600) * (1/2)⌋

/-- Lines 807–856: keep at most `max_reserve_per_pss = 8` hits per PSS index
(`pss_idx = hit_pss_fo_set_idx / num_fo_orig`), discarding surplus hits from
the end — i.e. a hit survives exactly when at most 7 earlier hits share its
PSS index. -/
def ppmReserve (num_fo_orig : ℕ) (hits : List (ℕ × ℤ × ℚ)) : List (ℕ × ℤ × ℚ) :=
  let pssList := hits.map (fun h => h.1 / num_fo_orig)
  (hits.enum.filter (fun je =>
    ((pssList.take (je.1 + 1)).filter (fun p => p = pssList.getD je.1 0)).length ≤ 8)).map
    (fun je => je.2)

/-- The `while(1)` loop of lines 872–903, fuel-indexed (the C matrix has
`max_num_hit = ceil(len/pss_period)` rows, so no run needs more iterations).
Each row holds `(time_location, hit_corr_val, time_location_invalid_record)`
per retained hit: step by one PSS period (9600), stop when the search window
would overrun the buffer (`max_next + 32 > len - 136 - 1`), otherwise take
the refined locations from `pss_fix_location_corr`, and mark entries whose
correlation fell below `th·3/4` as invalid, predicting their location. -/
def ppmLoop (len : ℕ) (fixCorr : ℤ → ℤ → List ℤ × List ℚ) :
    ℕ → List (ℤ × ℚ × Bool) → List (List (ℤ × ℚ × Bool))
  | 0, _ => []
  | fuel+1, lastRow =>
    let next := lastRow.map (fun e => e.1 + 9600)
    let maxNext := next.foldl max (next.headD 0)
    let minNext := next.foldl min (next.headD 0)
    if maxNext + 32 > (len : ℤ) - 136 - 1 then []
    else
      let tc := fixCorr (minNext - 32) (maxNext + 32)
      let newRow := List.zipWith
        (fun (p : ℤ × ℚ) (n : ℤ) =>
          if p.2 < pss_th * (3/4) then (n, p.2, true) else (p.1, p.2, false))
        (tc.1.zip tc.2) next
      newRow :: ppmLoop len fixCorr fuel newRow

/-- Row 0 (the `pss_moving_corr` hits, never marked invalid) followed by the
periodicity-verification rows. -/
def ppmRows (len num_fo_orig : ℕ) (hits : List (ℕ × ℤ × ℚ))
    (fixCorr : ℤ → ℤ → List ℤ × List ℚ) : List (List (ℤ × ℚ × Bool)) :=
  let row0 := (ppmReserve num_fo_orig hits).map (fun h => (h.2.1, h.2.2, false))
  row0 :: ppmLoop len fixCorr (((len : ℚ) / 9600).ceil.toNat) row0

/-- The PPM fitting loop of lines 916–951: for each retained hit, find the
first (`sp`) and last (`ep`) valid row; skip the hit when there is none or
when `ep - sp < min_dist`; otherwise fit
`ppm = 1e6·(distance - len_ppm)/len_ppm` from the first and last valid
locations (`distance` is computed into a `uint32`, hence the `% 2^32`).
Returns the `(ppm_store, valid_idx)` pairs. -/
def ppmFit (len : ℕ) (rows : List (List (ℤ × ℚ × Bool))) : List (ℚ × ℕ) :=
  let numRows := rows.length
  let numCols := (rows.headD []).length
  (List.range numCols).filterMap (fun i =>
    let col := rows.map (fun r => r.getD i (0, 0, true))
    let valid := (List.range numRows).filter (fun j => (col.getD j (0, 0, true)).2.2 = false)
    match valid.head?, valid.getLast? with
    | some sp, some ep =>
      if (ep : ℤ) - sp < ppm_min_dist len then none
      else
        let distance : ℤ := ((col.getD ep (0, 0, true)).1 - (col.getD sp (0, 0, true)).1) % 2^32
        let len_ppm : ℤ := 9600 * ((ep : ℤ) - sp)
        some ((1000000 : ℚ) * ((distance : ℚ) - (len_ppm : ℚ)) / (len_ppm : ℚ), i)
    | _, _ => none)

/-- The driver (lines 758–1100): `ppm` is initialised to NaN (modeled as
`none`); if the moving correlation produced no hits, or the fitting produced
no valid hit sequence, return immediately with `fo_search_set` untouched;
otherwise hand the fitted PPM values to the aggregation tail `cont`. -/
def sampling_ppm_f_search_set_by_pss (len : ℕ) (fo_search_set : List ℚ)
    (hits : List (ℕ × ℤ × ℚ)) (fixCorr : ℤ → ℤ → List ℤ × List ℚ)
    (cont : List (ℚ × ℕ) → List ℚ × Option ℚ) : List ℚ × Option ℚ :=
  if hits.length = 0 then (fo_search_set, none)
  else if (ppmFit len (ppmRows len fo_search_set.length hits fixCorr)).length = 0 then
    (fo_search_set, none)
  else cont (ppmFit len (ppmRows len fo_search_set.length hits fixCorr))

/-- C7: if the moving correlation found no window above `th` (empty hit
list), or no retained hit yields a valid sequence for PPM fitting, then
`sampling_ppm_f_search_set_by_pss` returns `ppm = NaN` (`none`) and the
frequency search set exactly as it was on entry — for every aggregation
tail. -/
theorem sampling_ppm_failure_unchanged (len : ℕ) (F : List ℚ)
    (hits : List (ℕ × ℤ × ℚ)) (fixCorr : ℤ → ℤ → List ℤ × List ℚ)
    (cont : List (ℚ × ℕ) → List ℚ × Option ℚ)
    (h : hits = [] ∨ ppmFit len (ppmRows len F.length hits fixCorr) = []) :
    sampling_ppm_f_search_set_by_pss len F hits fixCorr cont = (F, none) := by
  unfold sampling_ppm_f_search_set_by_pss
  rcases h with h | h
  · rw [if_pos (by rw [h]; rfl)]
  · by_cases h0 : hits.length = 0
    · rw [if_pos h0]
    · rw [if_neg h0, if_pos (by rw [h]; rfl)]

/-- Witness for `sampling_ppm_failure_unchanged`: the no-hit path at the
standard capture length with a two-frequency search set. -/
theorem sampling_ppm_failure_unchanged_witness :
    sampling_ppm_f_search_set_by_pss 153600 [0, 5000] []
        (fun _ _ => ([], [])) (fun _ => ([], none)) = ([0, 5000], none) :=
  sampling_ppm_failure_unchanged 153600 [0, 5000] [] (fun _ _ => ([], []))
    (fun _ => ([], none)) (Or.inl rfl)

end LTECellScanner
